import Mathlib

/-!
Verification development for the fextra legacy-Office text extraction core.

The Go sources are shallowly embedded here:
* byte streams (`[]byte`) become `List Nat` whose entries model bytes
  (reads mask with `% 256`, matching the `byte` type);
* `uint32` arithmetic that can overflow in Go is wrapped explicitly with
  `u32`; scalar parameters model `uint32` values, and theorems carry the
  `< 2^32` bounds where they matter;
* fallible Go functions returning `(T, error)` become `Except`;
* Go loops become fuel-based or structurally recursive functions; a loop
  that can genuinely diverge in Go is modelled with a distinguished
  `fuelExhausted` outcome that a diverging run hits for every fuel value;
* a Go runtime panic (out-of-range slice index) is modelled as a
  distinguished error constructor, since the surrounding code does not
  recover from it;
* the external decoder libraries (`golang.org/x/text` GBK) are not part of
  the repository: functions that call them are split into a `...Raw` core
  returning the byte span plus decode mode, and a decoder-parameterised
  variant.
-/

deriving instance DecidableEq for Except

namespace Fextra

/-- Truncation to `uint32`: Go arithmetic on `uint32` operands is performed
modulo `2^32`. -/
def u32 (n : Nat) : Nat := n % 4294967296

/-- Go `uint32` subtraction `a - b` for values already in `uint32` range. -/
def u32sub (a b : Nat) : Nat := u32 (u32 a + 4294967296 - u32 b)

/-- Read one byte of a `[]byte` modelled as `List Nat` (entries are masked
to the byte range, out-of-range reads yield 0 and are only used behind the
bounds checks that the source performs). -/
def byteAt (l : List Nat) (i : Nat) : Nat := l.getD i 0 % 256

/-- Embeds `binary.LittleEndian.Uint16`. -/
def readU16LE (l : List Nat) (i : Nat) : Nat :=
  byteAt l i + 256 * byteAt l (i + 1)

/-- Embeds `binary.LittleEndian.Uint32`. -/
def readU32LE (l : List Nat) (i : Nat) : Nat :=
  byteAt l i + 256 * byteAt l (i + 1) + 65536 * byteAt l (i + 2) + 16777216 * byteAt l (i + 3)

/-- Go slice `l[a:b]` (for `a ≤ b ≤ len l`, which the sources check). -/
def slice (l : List Nat) (a b : Nat) : List Nat := (l.drop a).take (b - a)

/-! ### CLX piece table (src/experience/doc/fib/clx/pcd.go) -/

/-- Structure `Pcd` (pcd.go:34): 8-byte piece descriptor. -/
structure Pcd where
  Flags : Nat
  FcCompressed : Nat
  Prm : Nat
  deriving Repr, DecidableEq

instance : Inhabited Pcd := ⟨⟨0, 0, 0⟩⟩

/-- Method `Pcd.Fc` (pcd.go:44): 30-bit text stream offset. -/
def Pcd.Fc (p : Pcd) : Nat := p.FcCompressed &&& 0x3FFFFFFF

/-- Method `Pcd.IsCompressed` (pcd.go:49): the A flag, bit 30 of `FcCompressed`. -/
def Pcd.IsCompressed (p : Pcd) : Bool := p.FcCompressed &&& 0x40000000 != 0

/-- Structure `PlcPcd` (pcd.go:63). -/
structure PlcPcd where
  ACP : List Nat
  APcd : List Pcd
  deriving Repr, DecidableEq

/-- Structure `Pcdt` (pcd.go:70). -/
structure Pcdt where
  Clxt : Nat
  Lcb : Nat
  PlcPcd : PlcPcd
  deriving Repr, DecidableEq

/-- Ascending check of pcd.go:97-101: `acp[j-1] ≤ acp[j]` for every j. -/
def isAscending : List Nat → Bool
  | [] => true
  | [_] => true
  | a :: b :: rest => decide (a ≤ b) && isAscending (b :: rest)

/-- Error outcomes of `Pcdt.GetText` (pcd.go:78-171), one constructor per
`return` with non-nil error.  `gbkDecodeFailed` carries the raw bytes the
source would return as the lossy fallback string alongside the error. -/
inductive GetTextErr where
  | zeroLength
  | lengthTooBig
  | acpLenMismatch
  | acpNotAscending
  | cpOutOfRange
  | pcdNotFound
  | runCrossesPiece
  | offsetBeyondStream
  | compressedTruncated
  | uncompressedTruncated
  | gbkDecodeFailed (raw : List Nat)
  deriving Repr, DecidableEq

/-- The byte span `Pcdt.GetText` reads before handing it to a decoder:
`compressed` selects the single-byte (GBK) branch versus the UTF-16LE
branch, `offset` is the byte offset into the WordDocument stream, `bytes`
the bytes read there. -/
structure RawRun where
  compressed : Bool
  offset : Nat
  bytes : List Nat
  deriving Repr, DecidableEq

/-- Core of `Pcdt.GetText` (pcd.go:78-171) up to (but excluding) the
decoder calls, mirroring every validation step of the source in order.
`sort.Search` over the ascending `acp` returns the smallest index whose
entry exceeds `cp` (or `len acp`), which is `List.findIdx` of the same
predicate; the source checks ascending order just before searching.
The Go `i := sort.Search(...) - 1` lives in `int`, so `i < 0` is the
`s = 0` case of the embedded `s - 1` on `Nat`. -/
def Pcdt.GetTextRaw (pcdt : Pcdt) (cp length : Nat) (wordDocStream : List Nat) :
    Except GetTextErr RawRun :=
  if length = 0 then .error .zeroLength
  else if length > 4294967295 / 2 then .error .lengthTooBig
  else
    let acp := pcdt.PlcPcd.ACP
    let apcd := pcdt.PlcPcd.APcd
    if acp.length ≠ apcd.length + 1 then .error .acpLenMismatch
    else if ¬ isAscending acp then .error .acpNotAscending
    else if acp.length = 0 ∨ cp > acp.getD (acp.length - 1) 0 then .error .cpOutOfRange
    else
      let s := acp.findIdx (fun a => decide (cp < a))
      if s = 0 then .error .pcdNotFound
      else if apcd.length ≤ s - 1 then .error .pcdNotFound
      else
        let i := s - 1
        let pcd := apcd.getD i default
        let charOffset := u32sub cp (acp.getD i 0)
        let maxCharsInEntry := u32sub (acp.getD (i + 1) 0) (acp.getD i 0)
        if u32 (charOffset + length) > maxCharsInEntry then .error .runCrossesPiece
        else
          let fc := pcd.Fc
          let textOffset :=
            if pcd.IsCompressed then u32 (fc / 2 + charOffset)
            else u32 (fc + u32 (2 * charOffset))
          if textOffset ≥ u32 wordDocStream.length then .error .offsetBeyondStream
          else if pcd.IsCompressed then
            let byteLength := length
            if u32 (textOffset + byteLength) > u32 wordDocStream.length then
              .error .compressedTruncated
            else .ok ⟨true, textOffset, slice wordDocStream textOffset (textOffset + byteLength)⟩
          else
            let byteLength := u32 (2 * length)
            if u32 (textOffset + byteLength) > u32 wordDocStream.length then
              .error .uncompressedTruncated
            else .ok ⟨false, textOffset, slice wordDocStream textOffset (textOffset + byteLength)⟩

/-- The byte offset formula of the specification for a piece descriptor:
`fc/2 + char_offset` for a compressed piece, `fc + 2*char_offset`
otherwise (exact arithmetic, no `uint32` truncation). -/
def pcdTextOffset (p : Pcd) (charOffset : Nat) : Nat :=
  if p.IsCompressed then p.Fc / 2 + charOffset else p.Fc + 2 * charOffset

/-- Bytes read for a request of `length` characters: `length` when
compressed, `2*length` when uncompressed. -/
def pcdByteLen (p : Pcd) (length : Nat) : Nat :=
  if p.IsCompressed then length else 2 * length

/-! ### UTF-16 decoding helpers

Decoded text is modelled as a list of Unicode code points (Go runes),
written `List Nat`, so that every definition evaluates inside the
kernel.  The sources decode UTF-16 either through `unicode/utf16.Decode`
(std library semantics: a valid surrogate pair combines, any unpaired
surrogate becomes U+FFFD) or through hand-rolled loops with the same
pairing rule. -/

/-- Embeds `unicode/utf16.Decode` on a list of 16-bit units. -/
def utf16Std : List Nat → List Nat
  | [] => []
  | [a] => if 0xD800 ≤ a ∧ a < 0xE000 then [0xFFFD] else [a]
  | a :: b :: rest =>
    if 0xD800 ≤ a ∧ a < 0xDC00 then
      if 0xDC00 ≤ b ∧ b < 0xE000 then
        (0x10000 + (a - 0xD800) * 1024 + (b - 0xDC00)) :: utf16Std rest
      else 0xFFFD :: utf16Std (b :: rest)
    else if 0xDC00 ≤ a ∧ a < 0xE000 then 0xFFFD :: utf16Std (b :: rest)
    else a :: utf16Std (b :: rest)

/-- Little-endian packing of a byte list into 16-bit units, `(len/2)`
units: the loop of pcd.go:164-167 and the corresponding loops of the PPT
and XLS decoders. -/
def bytesToU16LE (data : List Nat) : List Nat :=
  (List.range (data.length / 2)).map (fun j => readU16LE data (2 * j))

/-- BOM handling shared by the `decodeUTF16` helpers (xls.go:85-106,
part_003:85-117, part_007:66-98): a leading FF FE selects little-endian,
FE FF big-endian, otherwise little-endian with no bytes skipped.
Returns the 16-bit units after the optional BOM. -/
def utf16UnitsOfBytes (data : List Nat) : List Nat :=
  if 2 ≤ data.length ∧ byteAt data 0 = 0xFF ∧ byteAt data 1 = 0xFE then
    bytesToU16LE (data.drop 2)
  else if 2 ≤ data.length ∧ byteAt data 0 = 0xFE ∧ byteAt data 1 = 0xFF then
    (List.range ((data.length - 2) / 2)).map
      (fun j => 256 * byteAt data (2 + 2 * j) + byteAt data (2 + 2 * j + 1))
  else bytesToU16LE data

/-- Embeds `decodeUTF16` of xls.go:85-106 (also the surrogate semantics of the
PPT copies, whose explicit pairing loop agrees with `utf16.Decode` on
every input where a high surrogate is followed by at least one more
unit; the PPT copies map a lone trailing unit through `rune`, which the
Go string conversion also turns into U+FFFD). -/
def decodeUTF16 (data : List Nat) : List Nat :=
  utf16Std (utf16UnitsOfBytes data)

/-- Embeds `unicode.IsSpace` restricted to the Latin-1 range, which covers every
code point this development feeds to `strings.TrimSpace` (the higher
Unicode space runes of category Zs never arise in the concrete inputs
below). -/
def isSpaceRune (c : Nat) : Bool :=
  c = 0x20 ∨ c = 0x09 ∨ c = 0x0A ∨ c = 0x0B ∨ c = 0x0C ∨ c = 0x0D ∨ c = 0x85 ∨ c = 0xA0

/-- Embeds `strings.TrimSpace` on a rune sequence. -/
def trimSpace (s : List Nat) : List Nat :=
  ((s.dropWhile isSpaceRune).reverse.dropWhile isSpaceRune).reverse

/-! ### Pcdt parsing (pcd.go:175-237) -/

/-- Error outcomes of `parsePcdt`.  `slicePanic` models the Go slice
bounds panic `data[5 : 5+lcb]` that fires when `5+lcb` wraps the
`uint32` range below 5. -/
inductive PcdtErr where
  | tooShort
  | badTag
  | zeroLcb
  | truncated
  | slicePanic
  | emptyAcp
  | sizeMismatch
  deriving Repr, DecidableEq

/-- Embeds `parsePcdt` (pcd.go:175-237).  The per-element truncation guards of
the source (pcd.go:215-216 and 226-227) cannot fire once the size
formula `(acpCount-1)*12+4 = len(plcData)` has been validated — the last
`aCP` read ends at `4*acpCount ≤ 12*acpCount - 8` and the last `aPcd`
read ends exactly at `12*acpCount - 8` — so they are omitted here. -/
def parsePcdt (data : List Nat) : Except PcdtErr Pcdt :=
  if data.length < 5 then .error .tooShort
  else
    let clxt := byteAt data 0
    let lcb := readU32LE data 1
    if clxt ≠ 0x02 then .error .badTag
    else if lcb = 0 then .error .zeroLcb
    else
      let hi := u32 (5 + lcb)
      if hi > u32 data.length then .error .truncated
      else if hi < 5 then .error .slicePanic
      else
        let plcData := slice data 5 hi
        let acpCount := (plcData.length + 8) / 12
        if acpCount = 0 then .error .emptyAcp
        else if (acpCount - 1) * 12 + 4 ≠ plcData.length then .error .sizeMismatch
        else
          let acp := (List.range acpCount).map (fun i => readU32LE plcData (i * 4))
          let pcds := (List.range (acpCount - 1)).map (fun i =>
            let off := acpCount * 4 + i * 8
            Pcd.mk (readU16LE plcData off) (readU32LE plcData (off + 2)) (readU16LE plcData (off + 6)))
          .ok ⟨clxt, lcb, ⟨acp, pcds⟩⟩

/-! ### FIB (src/pkg/office/doc/fib/fib.go) -/

/-- The fields of `Fib` (fib.go:99-121) that the text path consumes. -/
structure Fib where
  Flags : Nat
  CcpText : Nat
  FcClx : Nat
  LcbClx : Nat
  deriving Repr, DecidableEq

/-- Error outcomes of `ParseFIB` (fib.go:316-342): a truncation at each
`binary.Read`/`io.ReadFull`, and the three count validations.  -/
inductive FibErr where
  | truncatedBase
  | truncatedCsw
  | invalidCsw (c : Nat)
  | truncatedCslw
  | invalidCslw (c : Nat)
  | truncatedFclcb
  | invalidFclcb (c : Nat)
  deriving Repr, DecidableEq

/-- Embeds `ParseFIB` (fib.go:316-342): `ParseFibBase` consumes the 32-byte
`FibBase` (`Flags` is the `uint16` at offset 10), then `parseFibCsw`,
`parseFibCslw` and `parseFibFclcb` read the three counted blocks.
`CcpText` is `cslw[3]` (fib.go:179-181), and `FcClx`/`LcbClx` are the
flattened `uint32` entries 66 and 67 of the fclcb block (fib.go:216-218;
the guard `len(fclcb) >= 66 && len(fclcb) >= 67` always holds because
every admissible count is at least 0x5D = 93, giving 186 entries).
`parseFibCswNew` is commented out in the source (fib.go:335-339). -/
def ParseFIB (data : List Nat) : Except FibErr Fib :=
  if data.length < 32 then .error .truncatedBase
  else if data.length < 34 then .error .truncatedCsw
  else
    let cswCnt := readU16LE data 32
    if cswCnt ≠ 0x000E then .error (.invalidCsw cswCnt)
    else if data.length < 34 + 2 * cswCnt then .error .truncatedCsw
    else if data.length < 36 + 2 * cswCnt then .error .truncatedCslw
    else
      let cslwCnt := readU16LE data (34 + 2 * cswCnt)
      if cslwCnt ≠ 0x0016 then .error (.invalidCslw cslwCnt)
      else if data.length < 36 + 2 * cswCnt + 4 * cslwCnt then .error .truncatedCslw
      else
        let ccpText := readU32LE data (36 + 2 * cswCnt + 4 * 3)
        if data.length < 38 + 2 * cswCnt + 4 * cslwCnt then .error .truncatedFclcb
        else
          let fclcbCnt := readU16LE data (36 + 2 * cswCnt + 4 * cslwCnt)
          if fclcbCnt ≠ 0x5D ∧ fclcbCnt ≠ 0x6C ∧ fclcbCnt ≠ 0x88 ∧ fclcbCnt ≠ 0xA4 ∧ fclcbCnt ≠ 0xB7 then
            .error (.invalidFclcb fclcbCnt)
          else if data.length < 38 + 2 * cswCnt + 4 * cslwCnt + 8 * fclcbCnt then
            .error .truncatedFclcb
          else
            let base := 38 + 2 * cswCnt + 4 * cslwCnt
            .ok ⟨readU16LE data 10, ccpText, readU32LE data (base + 4 * 66), readU32LE data (base + 4 * 67)⟩

/-! ### The whole-document sweep of `Fib.ParseFibClx` (fib.go:287-305)

The loop walks the pieces in ascending index order; for piece `i` it
computes `startCp = acp[i]` and `length = acp[i+1] - acp[i]`, skips empty
pieces, and calls `pcdt.GetText(startCp, f.CcpText, wd)` — note the
source passes the total character count `f.CcpText` as the length
argument, not the per-piece `length` it just computed (fib.go:299).  A
piece error aborts the whole extraction with empty output
(fib.go:300-302). -/

def sweepGo (pcdt : Pcdt) (ccpText : Nat) (wd : List Nat) :
    List Nat → Except GetTextErr (List RawRun)
  | [] => .ok []
  | i :: rest =>
    let acp := pcdt.PlcPcd.ACP
    let startCp := acp.getD i 0
    let endCp := acp.getD (i + 1) 0
    let length := u32sub endCp startCp
    if length = 0 then sweepGo pcdt ccpText wd rest
    else
      match pcdt.GetTextRaw startCp ccpText wd with
      | .error e => .error e
      | .ok seg =>
        match sweepGo pcdt ccpText wd rest with
        | .error e => .error e
        | .ok segs => .ok (seg :: segs)

/-- The piece sweep of `Fib.ParseFibClx` (fib.go:287-305), with the decoders
abstracted away: the returned list holds, in piece order, the byte span
each successful `GetText` call would decode. -/
def ParseFibClxSweep (pcdt : Pcdt) (ccpText : Nat) (wd : List Nat) :
    Except GetTextErr (List RawRun) :=
  sweepGo pcdt ccpText wd (List.range pcdt.PlcPcd.APcd.length)

/-! ### Decoder-parameterised `GetText` and sweep

The GBK decoder lives in `golang.org/x/text` (outside this repository);
it is passed in as a function `gbk` returning `none` where the Go
decoder returns a non-nil error.  On such an error the source returns
the raw bytes as a lossy fallback string TOGETHER with the error
(pcd.go:152-155); every caller in the repository treats the non-nil
error as failure, so the fallback rides on the error constructor. -/

/-- Embeds `Pcdt.GetText` (pcd.go:78-171) with the decode step made explicit on
top of `GetTextRaw`: GBK for the compressed branch (pcd.go:149-156),
`utf16.Decode` of the little-endian units for the uncompressed branch
(pcd.go:163-169). -/
def Pcdt.GetTextDec (gbk : List Nat → Option (List Nat)) (pcdt : Pcdt)
    (cp length : Nat) (wd : List Nat) : Except GetTextErr (List Nat) :=
  match pcdt.GetTextRaw cp length wd with
  | .error e => .error e
  | .ok r =>
    if r.compressed then
      match gbk r.bytes with
      | some s => .ok s
      | none => .error (.gbkDecodeFailed r.bytes)
    else .ok (utf16Std (bytesToU16LE r.bytes))

def sweepDecGo (gbk : List Nat → Option (List Nat)) (pcdt : Pcdt) (ccpText : Nat)
    (wd : List Nat) : List Nat → Except GetTextErr (List Nat)
  | [] => .ok []
  | i :: rest =>
    let acp := pcdt.PlcPcd.ACP
    let startCp := acp.getD i 0
    let endCp := acp.getD (i + 1) 0
    let length := u32sub endCp startCp
    if length = 0 then sweepDecGo gbk pcdt ccpText wd rest
    else
      match pcdt.GetTextDec gbk startCp ccpText wd with
      | .error e => .error e
      | .ok seg =>
        match sweepDecGo gbk pcdt ccpText wd rest with
        | .error e => .error e
        | .ok segs => .ok (seg ++ segs)

/-- The piece sweep of `Fib.ParseFibClx` (fib.go:287-305) with the decoders in
place: any piece error aborts the whole extraction (the Go code returns
`[]byte{}` plus the wrapped error, fib.go:300-302). -/
def ParseFibClxSweepDec (gbk : List Nat → Option (List Nat)) (pcdt : Pcdt)
    (ccpText : Nat) (wd : List Nat) : Except GetTextErr (List Nat) :=
  sweepDecGo gbk pcdt ccpText wd (List.range pcdt.PlcPcd.APcd.length)

/-! ### CFB chain walking (src/unnamed/part_005, `package doc`)

The physical file is a `List Nat` of bytes.  `os.File.Read` at an offset
at or past end-of-file returns `io.EOF` (an error for the caller); a
read that starts inside the file but runs past its end returns the bytes
available and leaves the rest of the zero-initialised caller buffer
untouched, without an error — both behaviours are modelled below. -/

/-- Outcomes of a chain walk.  `panicIndexOutOfRange` models the Go
runtime panic of an unchecked `d.FAT[currentSector]` with
`currentSector ≥ len(d.FAT)`; `fuelExhausted` models divergence (it is
reached for every fuel value exactly when the Go loop never exits). -/
inductive WalkErr where
  | panicIndexOutOfRange (id : Nat)
  | readBeyondEof
  | streamNotFound
  | fuelExhausted
  deriving Repr, DecidableEq

/-- One `File.Read` of `count` bytes at `off`: `io.EOF` when `off` is at
or past end-of-file, otherwise the available bytes padded with the zeroes
the buffer was initialised with. -/
def fileRead (file : List Nat) (off count : Nat) : Except WalkErr (List Nat) :=
  if file.length ≤ off then .error .readBeyondEof
  else
    let avail := (file.drop off).take count
    .ok (avail ++ List.replicate (count - avail.length) 0)

/-- Loop body of `DocParse.GetWordDocumentStream` (part_005:245-287):
walk the FAT chain from `currentSector`, reading each sector at physical
offset `512 + id * sectorSize`, clamping the final read to the declared
stream size, stopping at the 0xFFFFFFFE sentinel or once `streamSize`
bytes are collected.  The FAT lookup `d.FAT[currentSector]`
(part_005:281) is NOT bounds-checked in the source.  Each non-exiting
iteration adds at least one byte when `sectorSize ≥ 1`, so
`streamSize + 1` fuel always suffices. -/
def docStreamLoop (fat file : List Nat) (sectorSize streamSize : Nat) :
    Nat → Nat → Nat → Except WalkErr (List Nat)
  | 0, _, _ => .error .fuelExhausted
  | fuel + 1, currentSector, pos =>
    if currentSector = 0xFFFFFFFE then .ok []
    else if streamSize ≤ pos then .ok []
    else
      let sectorPos := 512 + currentSector * sectorSize
      let saved := if sectorSize ≤ streamSize - pos then sectorSize else streamSize - pos
      match fileRead file sectorPos saved with
      | .error e => .error e
      | .ok sectorData =>
        if currentSector < fat.length then
          match docStreamLoop fat file sectorSize streamSize fuel
              (fat.getD currentSector 0) (pos + saved) with
          | .ok rest => .ok (sectorData ++ rest)
          | .error e => .error e
        else .error (.panicIndexOutOfRange currentSector)

/-- Embeds `DocParse.GetWordDocumentStream` (part_005:245-287) for a directory
entry with start sector `startSector` and stream size `streamSize`. -/
def GetWordDocumentStream (fat file : List Nat) (sectorSize startSector streamSize : Nat) :
    Except WalkErr (List Nat) :=
  docStreamLoop fat file sectorSize streamSize (streamSize + 1) startSector 0

/-- Error outcomes of `DocParse.TraverseFAT` (part_005:556-568). -/
inductive TravErr where
  | invalidIndex (id : Nat)
  | fuelExhausted
  deriving Repr, DecidableEq

/-- Embeds `DocParse.TraverseFAT` (part_005:556-568): collect the chain from
`start`, returning the invalid-FAT-index error when the next id is
neither the 0xFFFFFFFE sentinel nor inside the table.  The Go loop has
no other exit, so a pointer cycle loops forever — `fuelExhausted` for
every fuel value. -/
def TraverseFAT (fat : List Nat) : Nat → Nat → Except TravErr (List Nat)
  | _, 0 => .error .fuelExhausted
  | current, fuel + 1 =>
    if current = 0xFFFFFFFE then .ok []
    else if fat.length ≤ current then .error (.invalidIndex current)
    else
      match TraverseFAT fat (fat.getD current 0) fuel with
      | .ok chain => .ok (current :: chain)
      | .error e => .error e

/-! ### XLS and PPT stream fetch guards

`XlsParse.GetWorkbookStream` (xls.go:219-252) and
`PptParse.GetPptDocumentStream` (part_003:327-360) share a line-identical
chain walk; both first reject a directory hit whose start sector id is 0
or whose declared size is 0 as "stream not found", before touching the
file. -/

/-- The shared walk loop (xls.go:228-247, part_003:336-355): combined
loop condition, clamped read size, unchecked FAT lookup. -/
def cfbStreamLoop (fat file : List Nat) (sectorSize size : Nat) :
    Nat → Nat → Nat → Except WalkErr (List Nat)
  | 0, _, _ => .error .fuelExhausted
  | fuel + 1, currentSector, pos =>
    if currentSector = 0xFFFFFFFE ∨ size ≤ pos then .ok []
    else
      let sectorPos := 512 + currentSector * sectorSize
      let readSize := if size < pos + sectorSize then size - pos else sectorSize
      match fileRead file sectorPos readSize with
      | .error e => .error e
      | .ok data =>
        if currentSector < fat.length then
          match cfbStreamLoop fat file sectorSize size fuel
              (fat.getD currentSector 0) (pos + readSize) with
          | .ok rest => .ok (data ++ rest)
          | .error e => .error e
        else .error (.panicIndexOutOfRange currentSector)

/-- Embeds `XlsParse.GetWorkbookStream` (xls.go:219-252): `BofSectorStartID = 0`
or `BofSectorSize = 0` is reported as a missing Workbook stream before
any byte is read. -/
def GetWorkbookStream (fat file : List Nat) (sectorSize startID size : Nat) :
    Except WalkErr (List Nat) :=
  if startID = 0 ∨ size = 0 then .error .streamNotFound
  else cfbStreamLoop fat file sectorSize size (size + 1) startID 0

/-- Embeds `PptParse.GetPptDocumentStream` (part_003:327-360):
`SlideSectorStartID = 0` or `SlideSectorSize = 0` is reported as a
missing PowerPoint Document stream before any byte is read. -/
def GetPptDocumentStream (fat file : List Nat) (sectorSize startID size : Nat) :
    Except WalkErr (List Nat) :=
  if startID = 0 ∨ size = 0 then .error .streamNotFound
  else cfbStreamLoop fat file sectorSize size (size + 1) startID 0

/-! ### PPT record tree walker (src/unnamed/part_007) -/

/-- Structure `RecordHeader` (part_007:196-201). -/
structure RecordHeader where
  RecVer : Nat
  RecInstance : Nat
  RecType : Nat
  RecLen : Nat
  deriving Repr, DecidableEq

/-- Error outcomes of the walker (part_007:205-299). -/
inductive PptErr where
  | headerBeyondStream
  | recordBeyondStream (recType : Nat)
  | emptyStream
  | fuelExhausted
  deriving Repr, DecidableEq

/-- Embeds `parseRecordHeader` (part_007:205-225): low 4 bits of the first
`uint16` are the version, high 12 bits the instance. -/
def parseRecordHeader (stream : List Nat) (pos : Nat) : Except PptErr RecordHeader :=
  if pos + 8 > stream.length then .error .headerBeyondStream
  else
    let verInstance := readU16LE stream pos
    .ok ⟨verInstance &&& 0x000F, verInstance >>> 4, readU16LE stream (pos + 2), readU32LE stream (pos + 4)⟩

/-- The text-atom set `extTextRecordTypes` (part_007:35-41). -/
def isTextAtom (t : Nat) : Bool := t = 0x0FA8 ∨ t = 0x0FA0 ∨ t = 0x0FBA

/-- The rune sequence of the literal `"=== 文本内容 ===\n"`
(part_007:289): three equals signs, a space, the four CJK characters
U+6587 U+672C U+5185 U+5BB9, a space, three equals signs, a newline. -/
def pptChunkHeader : List Nat :=
  [61, 61, 61, 32, 0x6587, 0x672C, 0x5185, 0x5BB9, 32, 61, 61, 61, 10]

/-- The chunk appended per non-empty text atom (part_007:289):
`fmt.Sprintf("=== 文本内容 ===\n%s\n\n", text)`. -/
def pptChunk (text : List Nat) : List Nat := pptChunkHeader ++ text ++ [10, 10]

/-- The two mutually recursive loops of part_007, fused over an explicit
call kind so the recursion is structural in the fuel:
`.node offset` is `parseRecordToNode` (part_007:243-299), whose loop
runs while `offset + 8 < StreamLen` — the length of the WHOLE stream,
not the payload end of the enclosing container; `.container offset recordEnd`
is `parseContainer` (part_007:227-234), which re-invokes the node loop
until the shared offset reaches `recordEnd`.  After a container the node
loop resets the offset to the `recordEnd` of the container (part_007:296).
A container whose sub-parse cannot advance the offset makes the Go
`parseContainer` loop spin forever: `fuelExhausted` for every fuel. -/
inductive PptCall where
  | node (offset : Nat)
  | container (offset recordEnd : Nat)

def pptRun (stream : List Nat) (streamLen : Nat) :
    Nat → PptCall → List Nat → Except PptErr (Nat × List Nat)
  | 0, _, _ => .error .fuelExhausted
  | fuel + 1, .container offset recordEnd, acc =>
    if offset < recordEnd then
      match pptRun stream streamLen fuel (.node offset) acc with
      | .error e => .error e
      | .ok (off2, acc2) => pptRun stream streamLen fuel (.container off2 recordEnd) acc2
    else .ok (offset, acc)
  | fuel + 1, .node offset, acc =>
    if offset + 8 < streamLen then
      match parseRecordHeader stream offset with
      | .error e => .error e
      | .ok header =>
        let off1 := offset + 8
        let recordEnd := off1 + header.RecLen
        if recordEnd > stream.length then .error (.recordBeyondStream header.RecType)
        else
          let step : Except PptErr (Nat × List Nat) :=
            if header.RecVer = 0xF then
              pptRun stream streamLen fuel (.container off1 recordEnd) acc
            else if isTextAtom header.RecType then
              let text := trimSpace (decodeUTF16 (slice stream off1 recordEnd))
              .ok (off1, if text ≠ [] then acc ++ pptChunk text else acc)
            else .ok (off1, acc)
          match step with
          | .error e => .error e
          | .ok (_, acc2) => pptRun stream streamLen fuel (.node recordEnd) acc2
    else .ok (offset, acc)

/-- Embeds `PptParse.parseTextRecords` (part_007:139-155) followed by
`ExtractText`: empty stream is an error, otherwise run the walker from
offset 0.  `(len+2)^2` fuel is ample for every terminating run in this
development. -/
def pptParseTextRecords (stream : List Nat) : Except PptErr (List Nat) :=
  if stream.length = 0 then .error .emptyStream
  else
    match pptRun stream stream.length ((stream.length + 2) * (stream.length + 2)) (.node 0) [] with
    | .error e => .error e
    | .ok (_, acc) => .ok acc

/-! ### XLS BIFF scanner (src/pkg/office/xls/xls.go:254-286) -/

/-- Loop of `XlsParse.parseCellRecords` (xls.go:261-283): read a 2-byte
type and 2-byte length while `pos + 4 < len(stream)`; for the two
text-bearing types decode the payload (breaking out if it overruns the
stream), trim, and append with a trailing newline when non-empty;
advance past the payload either way. -/
def parseCellGo (stream : List Nat) (pos : Nat) (acc : List Nat) : List Nat :=
  if h : pos + 4 < stream.length then
    let recordType := readU16LE stream pos
    let recordLen := readU16LE stream (pos + 2)
    if recordType = 0x0204 ∨ recordType = 0x00FD then
      if stream.length < pos + 4 + recordLen then acc
      else
        let text := trimSpace (decodeUTF16 (slice stream (pos + 4) (pos + 4 + recordLen)))
        parseCellGo stream (pos + 4 + recordLen) (if text ≠ [] then acc ++ text ++ [10] else acc)
    else parseCellGo stream (pos + 4 + recordLen) acc
  else acc
termination_by stream.length - pos
decreasing_by
  all_goals omega

/-- Embeds `XlsParse.parseCellRecords` (xls.go:254-286). -/
def parseCellRecords (stream : List Nat) : List Nat := parseCellGo stream 0 []

/-- Modelled from the spec/claim wording for the XLS scanner (§4.7): a
left-to-right linear fold over `(type, length, payload)` records — stop
when fewer than 4 bytes remain; read the 2-byte type and 2-byte length,
then `length` bytes of payload (stopping if they are not available);
append the trimmed UTF-16LE decode plus a trailing newline exactly when
the type is 0x0204 or 0x00FD and the decode is non-empty. -/
def xlsScanGo (stream : List Nat) (pos : Nat) (acc : List Nat) : List Nat :=
  if h : stream.length - pos < 4 then acc
  else
    let recordType := readU16LE stream pos
    let recordLen := readU16LE stream (pos + 2)
    if stream.length < pos + 4 + recordLen then acc
    else
      let text := trimSpace (decodeUTF16 (slice stream (pos + 4) (pos + 4 + recordLen)))
      let acc2 := if (recordType = 0x0204 ∨ recordType = 0x00FD) ∧ text ≠ [] then
        acc ++ text ++ [10] else acc
      xlsScanGo stream (pos + 4 + recordLen) acc2
termination_by stream.length - pos
decreasing_by
  all_goals omega

/-- Spec-side whole-stream scan. -/
def xlsScanSpec (stream : List Nat) : List Nat := xlsScanGo stream 0 []

/-! ### Concrete instances used by the theorems below -/

/-- Two-piece piece table: `cp = [0,1,2]`, both pieces compressed, piece 0
at `fc = 0` and piece 1 at `fc = 2` (so the byte offsets are 0 and 1). -/
def pcdt1 : Pcdt := ⟨2, 16, ⟨[0, 1, 2], [⟨0, 0x40000000, 0⟩, ⟨0, 0x40000002, 0⟩]⟩⟩

/-- One-piece piece table whose single piece spans `[0, 4294967295)`,
compressed with `fc = 0x20`: at `cp = 4294967280` the `uint32` byte
offset `fc/2 + char_offset` wraps to 0. -/
def pcdtWrap : Pcdt := ⟨2, 16, ⟨[0, 4294967295], [⟨0, 0x40000020, 0⟩]⟩⟩

/-- Two-piece table for the in-range read witness: pieces `[0,3)` and
`[3,5)`, piece 0 compressed with `fc_compressed = 0x40000010`, piece 1
uncompressed with `fc = 4`. -/
def pcdtW : Pcdt := ⟨2, 28, ⟨[0, 3, 5], [⟨0, 0x40000010, 0⟩, ⟨0, 4, 0⟩]⟩⟩

/-- WordDocument stream bytes for the in-range read witness. -/
def wdW : List Nat := [0, 1, 2, 3, 4, 5, 6, 7, 8, 9, 100, 101]

/-- Modelled from the spec: the replacement behaviour of the external
GBK decoder (`golang.org/x/text`, `simplifiedchinese.GBK.NewDecoder`,
outside this repository), on which §7 `TextDecodeFailure` relies —
untranscodable input degrades to U+FFFD.  ASCII bytes decode to
themselves; every other byte is replaced by U+FFFD here, which agrees
with the library on all bytes fed to it in this development (the only
non-ASCII byte used, a lone 0x81 lead byte, is an invalid/truncated GBK
sequence).  The two-byte GBK code table itself is irrelevant to the
claims. -/
def gbkLossyCore : List Nat → List Nat
  | [] => []
  | b :: rest => (if b < 0x80 then b else 0xFFFD) :: gbkLossyCore rest

/-- Modelled from the spec: the error contract of the external GBK
decoder — it substitutes replacement characters and never returns a
non-nil Go error, so in the `Option` interface of `Pcdt.GetTextDec` it
is total (never `none`). -/
def gbkLossy (bs : List Nat) : Option (List Nat) := some (gbkLossyCore bs)

/-- A 516-byte physical file whose sector area holds bytes 10 and 20
(sector size 1, header 512 bytes). -/
def cycFile : List Nat := List.replicate 512 0 ++ [10, 20]

/-- A valid 21-byte PCDT body: tag 0x02, `lcb = 16`, `cp = [0,5]`, one
`Pcd` with flags 1, `fc_compressed = 0x40000010`, `prm = 0`. -/
def pcdtBytes : List Nat :=
  [2, 16, 0, 0, 0] ++ [0, 0, 0, 0] ++ [5, 0, 0, 0] ++ [1, 0, 0x10, 0, 0, 0x40, 0, 0]

/-- A non-monotone piece table (`cp = [1,0]`). -/
def pcdtBad : Pcdt := ⟨2, 16, ⟨[1, 0], [⟨0, 0, 0⟩]⟩⟩

/-- A well-formed 898-byte FIB: zero `FibBase`, `cswCount = 14` with 28
zero bytes, `cslwCount = 22` with `cslw[3] = 7`, `fclcbCount = 0x5D`
with flattened `uint32` entries 66 and 67 equal to 0x1234 and 0x5678. -/
def fibBytes : List Nat :=
  List.replicate 32 0 ++ [14, 0] ++ List.replicate 28 0 ++ [22, 0] ++
    (List.replicate 12 0 ++ [7, 0, 0, 0] ++ List.replicate 72 0) ++ [93, 0] ++
    (List.replicate 264 0 ++ [0x34, 0x12, 0, 0] ++ [0x78, 0x56, 0, 0] ++ List.replicate 472 0)

/-- A 44-byte PowerPoint Document stream: a container record (version
nibble 0xF, type 0x03E8) of declared length 20 wrapping one text atom of
type 0x0FA0 whose UTF-16LE payload decodes to `ABCDEF`, followed by a
second, sibling text atom of type 0x0FA8 outside the container whose
payload decodes to `XYZW`. -/
def pptStreamCE : List Nat :=
  [0x0F, 0, 0xE8, 0x03, 20, 0, 0, 0] ++
    [0, 0, 0xA0, 0x0F, 12, 0, 0, 0] ++ [65, 0, 66, 0, 67, 0, 68, 0, 69, 0, 70, 0] ++
    [0, 0, 0xA8, 0x0F, 8, 0, 0, 0] ++ [88, 0, 89, 0, 90, 0, 87, 0]

/-- The first 28 bytes of `pptStreamCE`: the container and its single
atom only, with nothing after the container. -/
def pptStreamOnly : List Nat :=
  [0x0F, 0, 0xE8, 0x03, 20, 0, 0, 0] ++
    [0, 0, 0xA0, 0x0F, 12, 0, 0, 0] ++ [65, 0, 66, 0, 67, 0, 68, 0, 69, 0, 70, 0]

/-! ### Helper lemmas -/

theorem byteAt_lt (l : List Nat) (i : Nat) : byteAt l i < 256 :=
  Nat.mod_lt _ (by norm_num)

theorem readU32LE_lt (l : List Nat) (i : Nat) : readU32LE l i < 4294967296 := by
  have h0 := byteAt_lt l i
  have h1 := byteAt_lt l (i + 1)
  have h2 := byteAt_lt l (i + 2)
  have h3 := byteAt_lt l (i + 3)
  unfold readU32LE
  omega

theorem isAscending_adj (l : List Nat) (h : isAscending l = true) :
    ∀ j, j + 1 < l.length → l.getD j 0 ≤ l.getD (j + 1) 0 := by
  induction l with
  | nil => intro j hj; simp at hj
  | cons a t ih =>
    cases t with
    | nil => intro j hj; simp at hj
    | cons b r =>
      rw [show isAscending (a :: b :: r) = (decide (a ≤ b) && isAscending (b :: r)) from rfl,
        Bool.and_eq_true] at h
      intro j hj
      cases j with
      | zero => simpa using of_decide_eq_true h.1
      | succ k =>
        have := ih h.2 k (by simpa using hj)
        simpa using this

theorem isAscending_mono (l : List Nat) (h : isAscending l = true) :
    ∀ p d, p + d < l.length → l.getD p 0 ≤ l.getD (p + d) 0 := by
  intro p d
  induction d with
  | zero => intro _; exact Nat.le_refl _
  | succ k ih =>
    intro hd
    have h1 : l.getD p 0 ≤ l.getD (p + k) 0 := ih (by omega)
    have h2 : l.getD (p + k) 0 ≤ l.getD (p + k + 1) 0 :=
      isAscending_adj l h (p + k) (by omega)
    have he : p + (k + 1) = p + k + 1 := by omega
    rw [he]
    exact le_trans h1 h2

theorem u32_eq_of_lt {n : Nat} (h : n < 4294967296) : u32 n = n := Nat.mod_eq_of_lt h

theorem u32sub_eq {a b : Nat} (hb : b ≤ a) (ha : a < 4294967296) :
    u32sub a b = a - b := by
  unfold u32sub u32
  omega

/-- The linear/binary search of pcd.go:109 on an ascending `acp`: if
`acp[i] ≤ cp < acp[i+1]` then the first index whose entry exceeds `cp`
is `i + 1`. -/
theorem findIdx_of_piece (acp : List Nat) (cp i : Nat)
    (hasc : isAscending acp = true)
    (hi1 : i + 1 < acp.length)
    (hle : acp.getD i 0 ≤ cp) (hlt : cp < acp.getD (i + 1) 0) :
    acp.findIdx (fun a => decide (cp < a)) = i + 1 := by
  rw [List.findIdx_eq hi1]
  constructor
  · rw [← List.getD_eq_getElem acp 0 hi1]
    exact decide_eq_true hlt
  · intro j hj
    have hjlen : j + (i - j) = i := by omega
    have hmono : acp.getD j 0 ≤ acp.getD i 0 := by
      have := isAscending_mono acp hasc j (i - j) (by omega)
      rwa [hjlen] at this
    rw [← List.getD_eq_getElem acp 0 (by omega : j < acp.length)]
    simp only [decide_eq_false_iff_not, not_lt]
    exact le_trans hmono hle

/-- Helper for the cycle example: walking the two-element cycle
`FAT = [1,0]` from either sector never terminates, for any fuel. -/
theorem traverseFAT_cycle_aux : ∀ fuel,
    TraverseFAT [1, 0] 0 fuel = .error .fuelExhausted ∧
    TraverseFAT [1, 0] 1 fuel = .error .fuelExhausted := by
  intro fuel
  induction fuel with
  | zero => exact ⟨rfl, rfl⟩
  | succ k ih =>
    constructor
    · show TraverseFAT [1, 0] 0 (k + 1) = _
      rw [TraverseFAT]
      simp [ih.2]
    · show TraverseFAT [1, 0] 1 (k + 1) = _
      rw [TraverseFAT]
      simp [ih.1]

/-! ### Claims -/

set_option maxRecDepth 100000

/-- C1 — the claim fails on the code: the whole-document sweep of
`Fib.ParseFibClx` passes the total character count `f.CcpText` as the
length of every per-piece `GetText` call (fib.go:299) instead of the
per-piece length `cp[i+1] - cp[i]` it computes at fib.go:290.  On the
two-piece table `pcdt1` with `ccp_text = 2`, the very first call
requests 2 characters from a 1-character piece, `GetText` rejects it as
crossing the piece boundary, and the sweep aborts — while the per-piece
calls of the claim both succeed and would concatenate to the full text
(bytes `[65]` then `[66]`). -/
theorem fib_sweep_length_bug :
    ParseFibClxSweep pcdt1 2 [65, 66] = .error .runCrossesPiece ∧
    Pcdt.GetTextRaw pcdt1 0 1 [65, 66] = .ok ⟨true, 0, [65]⟩ ∧
    Pcdt.GetTextRaw pcdt1 1 1 [65, 66] = .ok ⟨true, 1, [66]⟩ :=
  ⟨by decide, by decide, by decide⟩

/-- C2 — the claim fails on the code: no chain walk in the repository
detects cycles.  With the cyclic table `FAT = [1,0]`, sector size 1 and
declared stream size 3, `GetWordDocumentStream` terminates (the declared
size bounds it) but returns success with the byte of sector 0 read twice —
there is no `CyclicChain` error anywhere; and `TraverseFAT` on the same
cycle never terminates (`fuelExhausted` for every fuel). -/
theorem chain_cycle_no_error :
    GetWordDocumentStream [1, 0] cycFile 1 0 3 = .ok [10, 20, 10] ∧
    (∀ fuel, TraverseFAT [1, 0] 0 fuel = .error .fuelExhausted) :=
  ⟨by decide, fun fuel => (traverseFAT_cycle_aux fuel).1⟩

/-- C3 counterexample — the chain walk used to read the WordDocument
stream (`DocParse.GetWordDocumentStream`) does not return a clean
dangling-pointer error: with `FAT = [5]` the chain reaches sector id 5,
which is neither the 0xFFFFFFFE sentinel nor a valid index, and the
unchecked `d.FAT[currentSector]` of part_005:281 panics (index out of
range) instead of returning an error. -/
theorem wordDocumentStream_dangling_panics :
    GetWordDocumentStream [5] (List.replicate 520 0) 1 0 2 =
      .error (.panicIndexOutOfRange 5) := by decide

/-- C3 amended — `DocParse.TraverseFAT` (part_005:556-568) does guard:
an id that is neither the sentinel nor a valid index yields its
invalid-index error, and any chain it returns successfully contains
only valid indices; but the walk actually used to read the WordDocument
stream performs no such check (see the counterexample). -/
theorem traverseFAT_dangling_guard :
    (∀ fat : List Nat, ∀ start fuel : Nat, 0 < fuel → start ≠ 0xFFFFFFFE →
      fat.length ≤ start → TraverseFAT fat start fuel = .error (.invalidIndex start)) ∧
    (∀ fat : List Nat, ∀ start fuel : Nat, ∀ chain : List Nat,
      TraverseFAT fat start fuel = .ok chain → ∀ c ∈ chain, c < fat.length) := by
  constructor
  · intro fat start fuel hf hs hlen
    cases fuel with
    | zero => omega
    | succ k =>
      rw [TraverseFAT]
      rw [if_neg hs, if_pos hlen]
  · intro fat start fuel
    induction fuel generalizing start with
    | zero => intro chain h; exact absurd h (by simp [TraverseFAT])
    | succ k ih =>
      intro chain h
      rw [TraverseFAT] at h
      by_cases hs : start = 0xFFFFFFFE
      · rw [if_pos hs] at h
        injection h with h
        subst h
        intro c hc
        exact absurd hc (List.not_mem_nil c)
      · rw [if_neg hs] at h
        by_cases hlen : fat.length ≤ start
        · rw [if_pos hlen] at h
          exact absurd h (by simp)
        · rw [if_neg hlen] at h
          cases hrec : TraverseFAT fat (fat.getD start 0) k with
          | error e => rw [hrec] at h; exact absurd h (by simp)
          | ok chain2 =>
            rw [hrec] at h
            injection h with h
            subst h
            intro c hc
            rcases List.mem_cons.mp hc with hc | hc
            · subst hc; omega
            · exact ih (fat.getD start 0) chain2 hrec c hc

/-- C3 witness for the amended theorem: `TraverseFAT` on `FAT = [1,0]`
from the dangling id 7 errors immediately, and the successful walk on
the one-sector chain `FAT = [0xFFFFFFFE]` visits only valid indices. -/
theorem traverseFAT_dangling_guard_witness :
    TraverseFAT [1, 0] 7 3 = .error (.invalidIndex 7) ∧
    ∀ c ∈ ([0] : List Nat), c < ([4294967294] : List Nat).length :=
  ⟨traverseFAT_dangling_guard.1 [1, 0] 7 3 (by decide) (by decide) (by decide),
   traverseFAT_dangling_guard.2 [4294967294] 0 3 [0] (by decide)⟩

/-- C7 — the claim fails on the code: the container recursion of
part_007 does not confine itself to the container payload.
`parseContainer` (part_007:227-234) re-invokes `parseRecordToNode`,
whose loop runs to the end of the WHOLE stream (part_007:246), so on
`pptStreamCE` — a container of declared length 20 wrapping one 0x0FA0
atom (`ABCDEF`), followed by a sibling 0x0FA8 atom (`XYZW`) — the
recursion decodes the sibling atom from outside the 20-byte payload,
and after the offset is reset to the container end (part_007:296) the
sibling is decoded a second time: the output holds `XYZW` twice.  When
nothing follows the container (`pptStreamOnly`) the extractor does
return exactly the text of the wrapped atom. -/
theorem ppt_container_escapes_payload :
    pptParseTextRecords pptStreamCE =
      .ok (pptChunk [65, 66, 67, 68, 69, 70] ++ pptChunk [88, 89, 90, 87] ++
        pptChunk [88, 89, 90, 87]) ∧
    pptParseTextRecords pptStreamOnly = .ok (pptChunk [65, 66, 67, 68, 69, 70]) :=
  ⟨by decide, by decide⟩

/-- C10 — confirmed: both `XlsParse.GetWorkbookStream` (xls.go:220) and
`PptParse.GetPptDocumentStream` (part_003:328) report the stream as not
found whenever its directory start-sector id is 0 or its declared size
is 0, for every allocation table and file content — i.e. before any
bytes are read; so a stream legitimately stored from sector 0 is
reported absent. -/
theorem stream_zero_start_or_size_not_found :
    (∀ fat file : List Nat, ∀ sectorSize startID size : Nat, startID = 0 ∨ size = 0 →
      GetWorkbookStream fat file sectorSize startID size = .error .streamNotFound) ∧
    (∀ fat file : List Nat, ∀ sectorSize startID size : Nat, startID = 0 ∨ size = 0 →
      GetPptDocumentStream fat file sectorSize startID size = .error .streamNotFound) := by
  constructor
  · intro fat file ss st sz h
    unfold GetWorkbookStream
    rw [if_pos h]
  · intro fat file ss st sz h
    unfold GetPptDocumentStream
    rw [if_pos h]

/-- C10 witness: a Workbook and a PowerPoint Document stream stored at
the (legitimate) sector 0 with non-zero size are reported missing. -/
theorem stream_zero_start_or_size_not_found_witness :
    GetWorkbookStream [2] [] 512 0 5 = .error .streamNotFound ∧
    GetPptDocumentStream [2] [] 512 0 5 = .error .streamNotFound :=
  ⟨stream_zero_start_or_size_not_found.1 [2] [] 512 0 5 (Or.inl rfl),
   stream_zero_start_or_size_not_found.2 [2] [] 512 0 5 (Or.inl rfl)⟩

/-- C8 — confirmed: decode failures degrade to lossy
replacement-character decoding and extraction continues.  The GBK
decode step lives in `golang.org/x/text` (outside this repository),
whose documented contract substitutes U+FFFD for untranscodable bytes
and returns no error, and the uncompressed branch uses `utf16.Decode`,
which has no error path at all (pcd.go:163-169) — so the error-return
at pcd.go:152-155 and the abort at fib.go:300-302 are unreachable on
real decodes.  First conjunct: under ANY total decoder (one that never
reports failure), `GetText` never turns a successful raw read into a
failure, so no decode can abort the document.  Second conjunct,
concretely: on the two-piece `pcdt1` with the modelled lossy decoder,
the piece holding the invalid GBK byte 0x81 decodes to U+FFFD and the
following piece still contributes its text `B` — one undecodable piece
does not blank the document.  (Each per-piece request here has
`ccp_text = 1`, in range for both pieces, so the separately judged C1
length slip does not interfere.) -/
theorem lossy_decode_continues :
    (∀ gbk : List Nat → Option (List Nat), (∀ bs : List Nat, gbk bs ≠ none) →
      ∀ pcdt : Pcdt, ∀ cp length : Nat, ∀ wd : List Nat, ∀ r : RawRun,
        Pcdt.GetTextRaw pcdt cp length wd = .ok r →
        ∃ s : List Nat, Pcdt.GetTextDec gbk pcdt cp length wd = .ok s) ∧
    ParseFibClxSweepDec gbkLossy pcdt1 1 [129, 66] = .ok [0xFFFD, 66] := by
  constructor
  · intro gbk htot pcdt cp length wd r hraw
    unfold Pcdt.GetTextDec
    rw [hraw]
    by_cases hc : r.compressed = true
    · cases hg : gbk r.bytes with
      | none => exact absurd hg (htot r.bytes)
      | some s => exact ⟨s, by simp [hc, hg]⟩
    · refine ⟨utf16Std (bytesToU16LE r.bytes), ?_⟩
      simp only [Bool.not_eq_true] at hc
      simp [hc]
  · decide

/-- C8 witness: the modelled lossy GBK decoder is total, and `GetText`
on the run holding the invalid byte 0x81 succeeds. -/
theorem lossy_decode_continues_witness :
    ∃ s : List Nat, Pcdt.GetTextDec gbkLossy pcdt1 0 1 [129, 66] = .ok s :=
  lossy_decode_continues.1 gbkLossy (fun bs => Option.some_ne_none (gbkLossyCore bs))
    pcdt1 0 1 [129, 66] ⟨true, 0, [129]⟩ (by decide)

/-- C6 — confirmed: a PCDT body is accepted only when, with
`n = (lcb + 8) / 12`, the size formula `(n-1)*12 + 4 = lcb` holds with
`n ≥ 1`, and then the parsed `cp` array has length `n` and the `Pcd`
array length `n - 1` (pcd.go:200-227); and `GetText` fails on every
piece table whose `cp` array is not non-decreasing (pcd.go:97-101). -/
theorem parsePcdt_size_and_monotone :
    (∀ data : List Nat, ∀ pcdt : Pcdt, parsePcdt data = .ok pcdt →
      1 ≤ (pcdt.Lcb + 8) / 12 ∧
      ((pcdt.Lcb + 8) / 12 - 1) * 12 + 4 = pcdt.Lcb ∧
      pcdt.PlcPcd.ACP.length = (pcdt.Lcb + 8) / 12 ∧
      pcdt.PlcPcd.APcd.length = (pcdt.Lcb + 8) / 12 - 1) ∧
    (∀ pcdt : Pcdt, ∀ cp length : Nat, ∀ wd : List Nat,
      isAscending pcdt.PlcPcd.ACP = false →
      ∀ r : RawRun, pcdt.GetTextRaw cp length wd ≠ .ok r) := by
  constructor
  · intro data pcdt h
    simp only [parsePcdt] at h
    split_ifs at h with h1 h2 h3 h4 h5 h6 h7
    · have hlcb := readU32LE_lt data 1
      have h5lcb : 5 + readU32LE data 1 < 4294967296 := by
        unfold u32 at h5
        omega
      have hhi : u32 (5 + readU32LE data 1) = 5 + readU32LE data 1 := u32_eq_of_lt h5lcb
      have hu32len : u32 data.length ≤ data.length := Nat.mod_le _ _
      have hlen5 : 5 + readU32LE data 1 ≤ data.length := by
        rw [hhi] at h4
        push_neg at h4
        omega
      have hplc : (slice data 5 (u32 (5 + readU32LE data 1))).length = readU32LE data 1 := by
        rw [hhi]
        unfold slice
        rw [List.length_take, List.length_drop]
        omega
      rw [hplc] at h6 h7
      injection h with h
      subst h
      dsimp only
      rw [hplc]
      refine ⟨by omega, by omega, ?_, ?_⟩
      · simp
      · simp
  · intro pcdt cp length wd hasc r
    simp only [Pcdt.GetTextRaw]
    by_cases h1 : length = 0
    · rw [if_pos h1]
      simp
    rw [if_neg h1]
    by_cases h2 : length > 4294967295 / 2
    · rw [if_pos h2]
      simp
    rw [if_neg h2]
    by_cases h3 : pcdt.PlcPcd.ACP.length ≠ pcdt.PlcPcd.APcd.length + 1
    · rw [if_pos h3]
      simp
    rw [if_neg h3]
    rw [if_pos (by simp [hasc] : ¬ isAscending pcdt.PlcPcd.ACP = true)]
    simp

/-- C6 witness: `pcdtBytes` parses with `n = 2`, and the non-monotone
table `pcdtBad` is rejected by `GetText`. -/
theorem parsePcdt_size_and_monotone_witness :
    (1 ≤ (16 + 8) / 12 ∧ ((16 + 8) / 12 - 1) * 12 + 4 = 16 ∧
      ([0, 5] : List Nat).length = (16 + 8) / 12 ∧
      [(⟨1, 0x40000010, 0⟩ : Pcd)].length = (16 + 8) / 12 - 1) ∧
    Pcdt.GetTextRaw pcdtBad 0 1 [] ≠ .ok ⟨true, 0, []⟩ :=
  ⟨parsePcdt_size_and_monotone.1 pcdtBytes ⟨2, 16, ⟨[0, 5], [⟨1, 0x40000010, 0⟩]⟩⟩ (by decide),
   parsePcdt_size_and_monotone.2 pcdtBad 0 1 [] (by decide) ⟨true, 0, []⟩⟩

/-- C5 — confirmed: whenever `ParseFIB` succeeds, the `uint16` heading
the csw block (stream offset 32, after the 32-byte `FibBase`) is
0x000E, the cslw count at offset 62 is 0x0016, the fclcb count at
offset 152 lies in {0x5D, 0x6C, 0x88, 0xA4, 0xB7}, the stream holds the
declared blocks, and the outputs are `cslw[3]` (the `uint32` at offset
76), and flattened fclcb entries 66 and 67 (offsets 418 and 422) —
contrapositively, a wrong count or a truncated stream fails. -/
theorem parseFIB_ok_spec :
    ∀ data : List Nat, ∀ f : Fib, ParseFIB data = .ok f →
      readU16LE data 32 = 0x000E ∧
      readU16LE data 62 = 0x0016 ∧
      (readU16LE data 152 = 0x5D ∨ readU16LE data 152 = 0x6C ∨ readU16LE data 152 = 0x88 ∨
        readU16LE data 152 = 0xA4 ∨ readU16LE data 152 = 0xB7) ∧
      154 + 8 * readU16LE data 152 ≤ data.length ∧
      f.CcpText = readU32LE data 76 ∧ f.FcClx = readU32LE data 418 ∧
      f.LcbClx = readU32LE data 422 := by
  intro data f h
  simp only [ParseFIB] at h
  by_cases h1 : data.length < 32
  · rw [if_pos h1] at h
    exact absurd h (by simp)
  rw [if_neg h1] at h
  by_cases h2 : data.length < 34
  · rw [if_pos h2] at h
    exact absurd h (by simp)
  rw [if_neg h2] at h
  by_cases h3 : readU16LE data 32 ≠ 14
  · rw [if_pos h3] at h
    exact absurd h (by simp)
  rw [if_neg h3] at h
  rw [not_ne_iff] at h3
  rw [h3] at h
  norm_num at h
  by_cases h4 : data.length < 62
  · rw [if_pos h4] at h
    exact absurd h (by simp)
  rw [if_neg h4] at h
  by_cases h5 : data.length < 64
  · rw [if_pos h5] at h
    exact absurd h (by simp)
  rw [if_neg h5] at h
  by_cases h6 : readU16LE data 62 = 22
  case neg =>
    rw [if_neg h6] at h
    exact absurd h (by simp)
  rw [if_pos h6] at h
  rw [h6] at h
  norm_num at h
  by_cases h7 : data.length < 152
  · rw [if_pos h7] at h
    exact absurd h (by simp)
  rw [if_neg h7] at h
  by_cases h8 : data.length < 154
  · rw [if_pos h8] at h
    exact absurd h (by simp)
  rw [if_neg h8] at h
  by_cases h9 : ¬ readU16LE data 152 = 93 ∧ ¬ readU16LE data 152 = 108 ∧
      ¬ readU16LE data 152 = 136 ∧ ¬ readU16LE data 152 = 164 ∧ ¬ readU16LE data 152 = 183
  · rw [if_pos h9] at h
    exact absurd h (by simp)
  rw [if_neg h9] at h
  by_cases h10 : data.length < 154 + 8 * readU16LE data 152
  · rw [if_pos h10] at h
    exact absurd h (by simp)
  rw [if_neg h10] at h
  injection h with h
  subst h
  exact ⟨h3, h6, by omega, by omega, rfl, rfl, rfl⟩

/-- C4 counterexample — the claimed byte-offset formula fails at a
`uint32` wraparound: on `pcdtWrap` the in-piece request `cp =
4294967280`, `length = 1` has claimed byte offset `fc/2 + char_offset =
16 + 4294967280 = 2^32`, which cannot lie inside the 1-byte stream, yet
`GetText` succeeds: the Go `uint32` addition wraps the offset to 0 and
the byte at offset 0 is read. -/
theorem getText_offset_wraps :
    Pcdt.GetTextRaw pcdtWrap 4294967280 1 [77] = .ok ⟨true, 0, [77]⟩ ∧
    pcdTextOffset ⟨0, 0x40000020, 0⟩ 4294967280 ≠ 0 :=
  ⟨by decide, by decide⟩

/-- C4 amended — the derived fields are as claimed (`fc` is the low 30
bits, the compressed flag is bit 30, and `fc_compressed = 0x40000010`
gives `fc = 0x10`, compressed), and for every in-range request whose
claimed byte span `[off, off + byteLen)` — `off = fc/2 + char_offset`,
`byteLen = length` when compressed, `off = fc + 2*char_offset`,
`byteLen = 2*length` when uncompressed — lies inside the stream (which
rules out the `uint32` wraparound of the counterexample), `GetText`
reads exactly those bytes in that mode. -/
theorem getText_inRange_reads :
    (Pcd.Fc ⟨0, 0x40000010, 0⟩ = 0x10 ∧ Pcd.IsCompressed ⟨0, 0x40000010, 0⟩ = true) ∧
    (∀ p : Pcd, p.IsCompressed = true ↔ p.FcCompressed / 2 ^ 30 % 2 = 1) ∧
    (∀ pcdt : Pcdt, ∀ cp length i : Nat, ∀ wd : List Nat,
      length ≠ 0 → length ≤ 2147483647 →
      pcdt.PlcPcd.ACP.length = pcdt.PlcPcd.APcd.length + 1 →
      isAscending pcdt.PlcPcd.ACP = true →
      (∀ x ∈ pcdt.PlcPcd.ACP, x < 4294967296) →
      wd.length < 4294967296 →
      i < pcdt.PlcPcd.APcd.length →
      pcdt.PlcPcd.ACP.getD i 0 ≤ cp →
      cp < pcdt.PlcPcd.ACP.getD (i + 1) 0 →
      cp - pcdt.PlcPcd.ACP.getD i 0 + length ≤
        pcdt.PlcPcd.ACP.getD (i + 1) 0 - pcdt.PlcPcd.ACP.getD i 0 →
      pcdTextOffset (pcdt.PlcPcd.APcd.getD i default) (cp - pcdt.PlcPcd.ACP.getD i 0) +
          pcdByteLen (pcdt.PlcPcd.APcd.getD i default) length ≤ wd.length →
      pcdt.GetTextRaw cp length wd =
        .ok ⟨(pcdt.PlcPcd.APcd.getD i default).IsCompressed,
          pcdTextOffset (pcdt.PlcPcd.APcd.getD i default) (cp - pcdt.PlcPcd.ACP.getD i 0),
          slice wd (pcdTextOffset (pcdt.PlcPcd.APcd.getD i default) (cp - pcdt.PlcPcd.ACP.getD i 0))
            (pcdTextOffset (pcdt.PlcPcd.APcd.getD i default) (cp - pcdt.PlcPcd.ACP.getD i 0) +
              pcdByteLen (pcdt.PlcPcd.APcd.getD i default) length)⟩ ∧
      (slice wd (pcdTextOffset (pcdt.PlcPcd.APcd.getD i default) (cp - pcdt.PlcPcd.ACP.getD i 0))
          (pcdTextOffset (pcdt.PlcPcd.APcd.getD i default) (cp - pcdt.PlcPcd.ACP.getD i 0) +
            pcdByteLen (pcdt.PlcPcd.APcd.getD i default) length)).length =
        pcdByteLen (pcdt.PlcPcd.APcd.getD i default) length) := by
  refine ⟨⟨by decide, by decide⟩, ?_, ?_⟩
  · intro p
    unfold Pcd.IsCompressed
    rw [show (0x40000000 : Nat) = 2 ^ 30 by norm_num, Nat.and_two_pow,
      Nat.testBit_to_div_mod]
    by_cases hbit : p.FcCompressed / 2 ^ 30 % 2 = 1
    · simp [hbit]
    · simp [hbit]
  · intro pcdt cp length i wd hl hmax hlen hasc hu32 hwd hi hle hlt hrun hfit
    simp only [Pcdt.GetTextRaw]
    set acp := pcdt.PlcPcd.ACP with hacp
    set apcd := pcdt.PlcPcd.APcd with hapcd
    set p := apcd.getD i default with hp
    set co := cp - acp.getD i 0 with hco
    have hi1 : i + 1 < acp.length := by omega
    have hmem : acp.getD (i + 1) 0 ∈ acp := by
      rw [List.getD_eq_getElem acp 0 hi1]
      exact List.getElem_mem hi1
    have hacpi1 : acp.getD (i + 1) 0 < 4294967296 := hu32 _ hmem
    have hcp32 : cp < 4294967296 := lt_trans hlt hacpi1
    have hacpi : acp.getD i 0 ≤ acp.getD (i + 1) 0 := isAscending_adj acp hasc i hi1
    have hfind : acp.findIdx (fun a => decide (cp < a)) = i + 1 :=
      findIdx_of_piece acp cp i hasc hi1 hle hlt
    have hlast : cp ≤ acp.getD (acp.length - 1) 0 := by
      have hd : (i + 1) + (acp.length - 1 - (i + 1)) = acp.length - 1 := by omega
      have hmono := isAscending_mono acp hasc (i + 1) (acp.length - 1 - (i + 1)) (by omega)
      rw [hd] at hmono
      omega
    rw [if_neg hl, if_neg (by omega : ¬ length > 4294967295 / 2)]
    rw [if_neg (by omega : ¬ acp.length ≠ apcd.length + 1)]
    rw [if_neg (by simp [hasc] : ¬ ¬ isAscending acp = true)]
    rw [if_neg (by push_neg; exact ⟨by omega, hlast⟩ :
      ¬ (acp.length = 0 ∨ cp > acp.getD (acp.length - 1) 0))]
    rw [hfind]
    rw [if_neg (by omega : ¬ i + 1 = 0)]
    simp only [Nat.add_sub_cancel]
    rw [if_neg (by omega : ¬ apcd.length ≤ i)]
    rw [u32sub_eq hle hcp32, u32sub_eq hacpi hacpi1]
    rw [if_neg (by rw [u32_eq_of_lt (by omega : co + length < 4294967296)]; omega :
      ¬ u32 (co + length) > acp.getD (i + 1) 0 - acp.getD i 0)]
    rw [u32_eq_of_lt hwd]
    by_cases hc : p.IsCompressed = true
    · have hofd : pcdTextOffset p co = p.Fc / 2 + co := by
        rw [pcdTextOffset, if_pos hc]
      have hbld : pcdByteLen p length = length := by
        rw [pcdByteLen, if_pos hc]
      have hfit2 : p.Fc / 2 + co + length ≤ wd.length := by
        rw [hofd, hbld] at hfit
        exact hfit
      rw [hofd, hbld]
      simp only [if_pos hc]
      rw [u32_eq_of_lt (by omega : p.Fc / 2 + co < 4294967296)]
      rw [if_neg (by omega : ¬ p.Fc / 2 + co ≥ wd.length)]
      rw [u32_eq_of_lt (by omega : p.Fc / 2 + co + length < 4294967296)]
      rw [if_neg (by omega : ¬ p.Fc / 2 + co + length > wd.length)]
      refine ⟨by rw [hc], ?_⟩
      unfold slice
      rw [List.length_take, List.length_drop]
      omega
    · have hcf : p.IsCompressed = false := by
        revert hc
        cases p.IsCompressed <;> simp
      have hofd : pcdTextOffset p co = p.Fc + 2 * co := by
        rw [pcdTextOffset, if_neg hc]
      have hbld : pcdByteLen p length = 2 * length := by
        rw [pcdByteLen, if_neg hc]
      have hfit2 : p.Fc + 2 * co + 2 * length ≤ wd.length := by
        rw [hofd, hbld] at hfit
        exact hfit
      rw [hofd, hbld]
      simp only [if_neg hc]
      rw [u32_eq_of_lt (by omega : 2 * co < 4294967296)]
      rw [u32_eq_of_lt (by omega : p.Fc + 2 * co < 4294967296)]
      rw [if_neg (by omega : ¬ p.Fc + 2 * co ≥ wd.length)]
      rw [u32_eq_of_lt (by omega : 2 * length < 4294967296)]
      rw [u32_eq_of_lt (by omega : p.Fc + 2 * co + 2 * length < 4294967296)]
      rw [if_neg (by omega : ¬ p.Fc + 2 * co + 2 * length > wd.length)]
      refine ⟨by rw [hcf], ?_⟩
      unfold slice
      rw [List.length_take, List.length_drop]
      omega

/-- C4 witness for the amended theorem: piece 0 of `pcdtW`
(`fc_compressed = 0x40000010`, so `fc = 0x10`, compressed), request
`cp = 1`, `length = 2` — `GetText` reads the 2 bytes at offset
`16/2 + 1 = 9` of `wdW`. -/
theorem getText_inRange_reads_witness :
    Pcdt.GetTextRaw pcdtW 1 2 wdW =
      .ok ⟨(pcdtW.PlcPcd.APcd.getD 0 default).IsCompressed,
        pcdTextOffset (pcdtW.PlcPcd.APcd.getD 0 default) (1 - pcdtW.PlcPcd.ACP.getD 0 0),
        slice wdW (pcdTextOffset (pcdtW.PlcPcd.APcd.getD 0 default) (1 - pcdtW.PlcPcd.ACP.getD 0 0))
          (pcdTextOffset (pcdtW.PlcPcd.APcd.getD 0 default) (1 - pcdtW.PlcPcd.ACP.getD 0 0) +
            pcdByteLen (pcdtW.PlcPcd.APcd.getD 0 default) 2)⟩ ∧
    (slice wdW (pcdTextOffset (pcdtW.PlcPcd.APcd.getD 0 default) (1 - pcdtW.PlcPcd.ACP.getD 0 0))
        (pcdTextOffset (pcdtW.PlcPcd.APcd.getD 0 default) (1 - pcdtW.PlcPcd.ACP.getD 0 0) +
          pcdByteLen (pcdtW.PlcPcd.APcd.getD 0 default) 2)).length =
      pcdByteLen (pcdtW.PlcPcd.APcd.getD 0 default) 2 :=
  getText_inRange_reads.2.2 pcdtW 1 2 0 wdW (by decide) (by decide) (by decide) (by decide)
    (by decide) (by decide) (by decide) (by decide) (by decide) (by decide) (by decide)

theorem slice_self (l : List Nat) (a : Nat) : slice l a a = [] := by
  simp [slice]

theorem decodeUTF16_nil : decodeUTF16 [] = [] := rfl

theorem trimSpace_nil : trimSpace [] = [] := rfl

/-- The XLS scanner loop agrees with the spec-side fold at every
position: the only divergence candidate is a tail of exactly 4 bytes,
where the code stops immediately and the fold reads a header whose
payload is either unavailable (it stops) or empty (it appends
nothing). -/
theorem parseCell_eq_scan_aux (stream : List Nat) :
    ∀ n pos acc, stream.length - pos ≤ n →
      parseCellGo stream pos acc = xlsScanGo stream pos acc := by
  intro n
  induction n with
  | zero =>
    intro pos acc hn
    rw [parseCellGo, xlsScanGo]
    rw [dif_neg (by omega : ¬ pos + 4 < stream.length)]
    rw [dif_pos (by omega : stream.length - pos < 4)]
  | succ k ih =>
    intro pos acc hn
    by_cases h1 : pos + 4 < stream.length
    case neg =>
      rw [parseCellGo, dif_neg h1, xlsScanGo]
      by_cases h2 : stream.length - pos < 4
      · rw [dif_pos h2]
      · rw [dif_neg h2]
        by_cases h3 : stream.length < pos + 4 + readU16LE stream (pos + 2)
        · rw [if_pos h3]
        · rw [if_neg h3]
          have hL : readU16LE stream (pos + 2) = 0 := by omega
          rw [hL]
          simp only [Nat.add_zero, slice_self, decodeUTF16_nil, trimSpace_nil, ne_eq,
            not_true_eq_false, and_false, if_false]
          rw [xlsScanGo, dif_pos (by omega : stream.length - (pos + 4) < 4)]
    case pos =>
      rw [parseCellGo, dif_pos h1]
      rw [xlsScanGo, dif_neg (by omega : ¬ stream.length - pos < 4)]
      by_cases hm : readU16LE stream pos = 0x0204 ∨ readU16LE stream pos = 0x00FD
      · rw [if_pos hm]
        by_cases ht : stream.length < pos + 4 + readU16LE stream (pos + 2)
        · rw [if_pos ht, if_pos ht]
        · rw [if_neg ht, if_neg ht]
          simp only [ne_eq]
          have hacc :
              (if (readU16LE stream pos = 0x0204 ∨ readU16LE stream pos = 0x00FD) ∧
                  ¬ trimSpace (decodeUTF16 (slice stream (pos + 4)
                    (pos + 4 + readU16LE stream (pos + 2)))) = [] then
                acc ++ trimSpace (decodeUTF16 (slice stream (pos + 4)
                  (pos + 4 + readU16LE stream (pos + 2)))) ++ [10]
              else acc) =
              (if ¬ trimSpace (decodeUTF16 (slice stream (pos + 4)
                  (pos + 4 + readU16LE stream (pos + 2)))) = [] then
                acc ++ trimSpace (decodeUTF16 (slice stream (pos + 4)
                  (pos + 4 + readU16LE stream (pos + 2)))) ++ [10]
              else acc) := by
            by_cases htx : trimSpace (decodeUTF16 (slice stream (pos + 4)
                (pos + 4 + readU16LE stream (pos + 2)))) = [] <;>
              simp [hm, htx]
          rw [hacc]
          exact ih (pos + 4 + readU16LE stream (pos + 2)) _ (by omega)
      · rw [if_neg hm]
        by_cases ht : stream.length < pos + 4 + readU16LE stream (pos + 2)
        · rw [if_pos ht]
          rw [ih (pos + 4 + readU16LE stream (pos + 2)) acc (by omega)]
          rw [xlsScanGo,
            dif_pos (by omega : stream.length - (pos + 4 + readU16LE stream (pos + 2)) < 4)]
        · rw [if_neg ht]
          simp only [ne_eq]
          have hacc :
              (if (readU16LE stream pos = 0x0204 ∨ readU16LE stream pos = 0x00FD) ∧
                  ¬ trimSpace (decodeUTF16 (slice stream (pos + 4)
                    (pos + 4 + readU16LE stream (pos + 2)))) = [] then
                acc ++ trimSpace (decodeUTF16 (slice stream (pos + 4)
                  (pos + 4 + readU16LE stream (pos + 2)))) ++ [10]
              else acc) = acc := by
            simp [hm]
          rw [hacc]
          exact ih (pos + 4 + readU16LE stream (pos + 2)) acc (by omega)

/-- C9 — confirmed: the output of `XlsParse.parseCellRecords` equals,
for every Workbook stream, the left-to-right fold described by the
spec: read a 2-byte type and 2-byte length then `length` payload bytes,
append the trimmed UTF-16LE decode plus a trailing newline exactly for
types 0x0204 and 0x00FD with a non-empty decode, stop when fewer than 4
bytes remain or a payload is unavailable.  (The code loop guard
`pos + 4 < len` also stops on a tail of exactly 4 bytes, but such a
tail can only be a header with an empty or unavailable payload, which
contributes nothing in the fold either.) -/
theorem parseCellRecords_eq_scanSpec :
    ∀ stream : List Nat, parseCellRecords stream = xlsScanSpec stream := by
  intro stream
  unfold parseCellRecords xlsScanSpec
  exact parseCell_eq_scan_aux stream stream.length 0 [] (by omega)

/-- C5 witness: the 898-byte `fibBytes` parses successfully with
`ccp_text = 7`, `fc_clx = 0x1234`, `lcb_clx = 0x5678`. -/
theorem parseFIB_ok_spec_witness :
    readU16LE fibBytes 32 = 0x000E ∧
    readU16LE fibBytes 62 = 0x0016 ∧
    (readU16LE fibBytes 152 = 0x5D ∨ readU16LE fibBytes 152 = 0x6C ∨
      readU16LE fibBytes 152 = 0x88 ∨ readU16LE fibBytes 152 = 0xA4 ∨
      readU16LE fibBytes 152 = 0xB7) ∧
    154 + 8 * readU16LE fibBytes 152 ≤ fibBytes.length ∧
    (7 : Nat) = readU32LE fibBytes 76 ∧ (0x1234 : Nat) = readU32LE fibBytes 418 ∧
    (0x5678 : Nat) = readU32LE fibBytes 422 :=
  parseFIB_ok_spec fibBytes ⟨0, 7, 0x1234, 0x5678⟩ (by decide)

end Fextra
